import Mathlib

/-!
# hero-chrome.js: mouse-tracked reflections, glint sweep and idle drift

A shallow embedding of `src/public/js/hero-chrome.js`.

Modelling conventions.

* JavaScript numbers are idealised as exact rationals (`ℚ`).  A division whose
  divisor is zero produces a non-finite JavaScript value (`Infinity` or `NaN`);
  that outcome is represented by `none` (see `jsDiv`), and every value computed
  from it is `none` as well.
* The host (DOM, animation-frame queue, timers, registered listeners, style
  writes) is an explicit record; the closure variables of the script are fields
  of the same record and keep their source names.
* `Math.sin` and `Math.cos` are parameters (`JsMath`).
-/

namespace HeroChrome

/-! ## Numbers and rectangles -/

/-- The quotient `a / b` of two JavaScript numbers: `none` when the divisor is zero
(the result is then `Infinity`, `-Infinity` or `NaN`). -/
def jsDiv (a b : ℚ) : Option ℚ :=
  if b = 0 then none else some (a / b)

/-- The value printed by `x.toFixed(digits)`: the multiple of `10^-digits` closest to `x`,
ties going away from zero. -/
def toFixed (x : ℚ) (digits : ℕ) : ℚ :=
  if x < 0 then -((⌊(-x) * 10 ^ digits + 1 / 2⌋ : ℤ) : ℚ) / 10 ^ digits
  else ((⌊x * 10 ^ digits + 1 / 2⌋ : ℤ) : ℚ) / 10 ^ digits

/-- A bounding client rectangle as reported by `getBoundingClientRect()`: the host
derives `right` and `bottom` from the origin and the size. -/
structure Rect where
  left : ℚ
  top : ℚ
  width : ℚ
  height : ℚ

/-- The `right` edge of a bounding rectangle. -/
def Rect.right (r : Rect) : ℚ := r.left + r.width

/-- The `bottom` edge of a bounding rectangle. -/
def Rect.bottom (r : Rect) : ℚ := r.top + r.height

/-- The rectangle reported for an element that is not rendered. -/
def zeroRect : Rect := ⟨0, 0, 0, 0⟩

/-! ## `update`: the per-target coordinate mapping (source lines 31-54) -/

/-- Line 33: `globalX = (mx - rowRect.left) / rowRect.width`. -/
def globalX (mx : ℚ) (rowRect : Rect) : Option ℚ :=
  jsDiv (mx - rowRect.left) rowRect.width

/-- Line 34: `globalY = (my - rowRect.top) / rowRect.height`. -/
def globalY (my : ℚ) (rowRect : Rect) : Option ℚ :=
  jsDiv (my - rowRect.top) rowRect.height

/-- Lines 38, 39, 42: the local horizontal coordinate `lx` of the pointer in target `r`. -/
def localX (mx : ℚ) (rowRect r : Rect) : Option ℚ := do
  let gX ← globalX mx rowRect
  let bL ← jsDiv (r.left - rowRect.left) rowRect.width
  let bR ← jsDiv (r.right - rowRect.left) rowRect.width
  let q ← jsDiv (gX - bL) (bR - bL)
  pure (q * 100)

/-- Lines 40, 41, 43: the local vertical coordinate `ly` of the pointer in target `r`. -/
def localY (my : ℚ) (rowRect r : Rect) : Option ℚ := do
  let gY ← globalY my rowRect
  let bT ← jsDiv (r.top - rowRect.top) rowRect.height
  let bB ← jsDiv (r.bottom - rowRect.top) rowRect.height
  let q ← jsDiv (gY - bT) (bB - bT)
  pure (q * 100)

/-- Lines 52-53: the number handed to `toFixed(2)`,
`Math.max(0.2, 1 - d * 0.5)` with `d = Math.abs(lx - 50) / 50`. -/
def opacity (lx : ℚ) : ℚ :=
  let d := |lx - 50| / 50
  max 0.2 (1 - d * 0.5)

/-- Line 53: the value written to `--ref-opacity`. -/
def refOpacity (lx : ℚ) : ℚ := toFixed (opacity lx) 2

/-- The seven custom properties `update` writes on one target. -/
structure BarStyle where
  rx : Option ℚ
  ry : Option ℚ
  rx2 : Option ℚ
  ry2 : Option ℚ
  sx : Option ℚ
  sy : Option ℚ
  refOpacity : Option ℚ

/-- Lines 37-53: the body of `bars.forEach` for a target with bounding rectangle `r`. -/
def barStyle (mx my : ℚ) (rowRect r : Rect) : BarStyle :=
  let lx := localX mx rowRect r
  let ly := localY my rowRect r
  { rx := lx
    ry := ly
    rx2 := lx.map fun v => 100 - v * 0.4
    ry2 := ly.map fun v => 100 - v * 0.3
    sx := lx.map fun v => v * 0.9 + 5
    sy := ly.map fun v => v * 0.85
    refOpacity := lx.map refOpacity }

/-! ## `glint`: the sweep timeline (source lines 74-114) -/

/-- Line 74: milliseconds to cross the viewport. -/
def SWEEP : ℚ := 11000

/-- Line 75: milliseconds between sweeps. -/
def PAUSE : ℚ := 1500

/-- Line 76: pixels of overshoot past the edges. -/
def OVER : ℚ := 300

/-- Lines 97-99: quadratic ease-in-out. -/
def ease (raw : ℚ) : ℚ :=
  if raw < 0.5 then 2 * raw * raw else 1 - (-2 * raw + 2) ^ 2 / 2

/-- Lines 97-102: the beam position `px` for progress `raw` and viewport width `innerWidth`. -/
def beamPx (innerWidth raw : ℚ) : ℚ :=
  let t := ease raw
  let total := innerWidth + OVER * 2
  let px := -OVER + t * total
  px

/-- JavaScript truthiness of a variable holding `null` or a number: `!v`. -/
def falsy (v : Option ℚ) : Bool :=
  match v with
  | none => true
  | some x => decide (x = 0)

/-! ## The host page and the controller state -/

/-- An element of the document: whether it matches the selectors the script uses,
and its current bounding rectangle. -/
structure Elem where
  isBar : Bool
  isGlint : Bool
  rect : Rect

/-- The part of the document and window the script reads. -/
structure Page where
  row : Option Rect
  elems : List Elem
  innerWidth : ℚ
  innerHeight : ℚ

/-- The event listeners the script registers, named after what they do:
the anonymous listeners of lines 58, 64 and 125, and `resetIdle` (line 148). -/
inductive Listener where
  | trackMouse
  | trackTouch
  | cacheRow
  | resetIdle
  deriving DecidableEq, Repr

/-- The functions the script hands to `requestAnimationFrame`. -/
inductive Callback where
  | update
  | glint
  | drift
  deriving DecidableEq, Repr

/-- An armed timer: its handle and the clock value at which it fires.  Both
`setTimeout` calls of the script arm the same function (lines 142-145, 149). -/
structure Timer where
  id : ℕ
  deadline : ℕ
  deriving DecidableEq, Repr

/-- The custom properties written by the script. -/
inductive CssProp where
  | rx
  | ry
  | rx2
  | ry2
  | sx
  | sy
  | refOpacity
  | beamOffsetX
  | beamOffsetY
  | beamPos
  deriving DecidableEq, Repr

/-- One call of `style.setProperty`: the element (its index in the document), the
property, and the number written (`none` for a non-finite one). -/
structure StyleWrite where
  elem : ℕ
  prop : CssProp
  value : Option ℚ

/-- The host functions `Math.sin` and `Math.cos`. -/
structure JsMath where
  sin : ℚ → ℚ
  cos : ℚ → ℚ

/-- The host state together with the closure variables of the script.  When the
script returns at line 21 or 24 its variables are never read; they hold defaults. -/
structure State where
  page : Page
  now : ℕ
  listeners : List Listener
  rafQueue : List Callback
  timers : List Timer
  nextTimerId : ℕ
  writes : List StyleWrite
  bars : List ℕ
  ticking : Bool
  mx : ℚ
  my : ℚ
  sweepStart : Option ℚ
  pausing : Bool
  pauseStart : Option ℚ
  idleTimer : ℕ
  angle : ℚ
  isIdle : Bool
  rowCache : Rect

/-- The result of `row.getBoundingClientRect()`. -/
def rowRect (p : Page) : Rect := p.row.getD zeroRect

/-- The result of `getBoundingClientRect()` on the element with index `i`. -/
def rectOf (p : Page) (i : ℕ) : Rect := ((p.elems.get? i).map Elem.rect).getD zeroRect

/-- The indices of the elements satisfying `sel`, in document order. -/
def querySelectorAll (p : Page) (sel : Elem → Bool) : List ℕ :=
  (List.range p.elems.length).filter fun i => ((p.elems.get? i).map sel).getD false

/-- The host primitive `requestAnimationFrame(cb)`. -/
def requestAnimationFrame (s : State) (cb : Callback) : State :=
  { s with rafQueue := s.rafQueue ++ [cb] }

/-- The host primitive `addEventListener`. -/
def addEventListener (s : State) (l : Listener) : State :=
  { s with listeners := s.listeners ++ [l] }

/-- The host primitive `setTimeout(f, delay)`: arms a timer and returns its handle. -/
def setTimeout (s : State) (delay : ℕ) : State × ℕ :=
  ({ s with timers := s.timers ++ [⟨s.nextTimerId, s.now + delay⟩],
            nextTimerId := s.nextTimerId + 1 }, s.nextTimerId)

/-- The host primitive `clearTimeout(id)`. -/
def clearTimeout (s : State) (id : ℕ) : State :=
  { s with timers := s.timers.filter fun t => t.id ≠ id }

/-- The seven `setProperty` calls of lines 45-53 on the target with index `i`. -/
def barWrites (i : ℕ) (b : BarStyle) : List StyleWrite :=
  [⟨i, .rx, b.rx⟩, ⟨i, .ry, b.ry⟩, ⟨i, .rx2, b.rx2⟩, ⟨i, .ry2, b.ry2⟩,
   ⟨i, .sx, b.sx⟩, ⟨i, .sy, b.sy⟩, ⟨i, .refOpacity, b.refOpacity⟩]

/-- Lines 31-56: `update()`. -/
def update (s : State) : State :=
  let rowRect := rowRect s.page
  { s with
    writes := s.writes ++
      s.bars.flatMap fun i => barWrites i (barStyle s.mx s.my rowRect (rectOf s.page i))
    ticking := false }

/-- Lines 61, 68 and 134: `if (!ticking) { requestAnimationFrame(update); ticking = true; }`. -/
def scheduleUpdate (s : State) : State :=
  if !s.ticking then { requestAnimationFrame s .update with ticking := true } else s

/-- The three `setProperty` calls of lines 107-109 on the element with index `i`. -/
def beamWrites (p : Page) (px : ℚ) (i : ℕ) : List StyleWrite :=
  let r := rectOf p i
  [⟨i, .beamOffsetX, some (toFixed r.left 0)⟩, ⟨i, .beamOffsetY, some (toFixed r.top 0)⟩,
   ⟨i, .beamPos, some (toFixed px 0)⟩]

/-- Lines 81-114: `glint(ts)`. -/
def glint (s : State) (ts : ℚ) : State :=
  if s.pausing then
    let pauseStart := if falsy s.pauseStart then ts else s.pauseStart.getD 0
    let s1 := { s with pauseStart := some pauseStart }
    let s2 :=
      if ts - pauseStart ≥ PAUSE then
        { s1 with pausing := false, pauseStart := none, sweepStart := none }
      else s1
    requestAnimationFrame s2 .glint
  else
    let sweepStart := if falsy s.sweepStart then ts else s.sweepStart.getD 0
    let raw := min ((ts - sweepStart) / SWEEP) 1
    let px := beamPx s.page.innerWidth raw
    let s1 := { s with
      sweepStart := some sweepStart
      writes := s.writes ++
        (querySelectorAll s.page fun e => e.isBar || e.isGlint).flatMap (beamWrites s.page px) }
    let s2 := if raw ≥ 1 then { s1 with pausing := true } else s1
    requestAnimationFrame s2 .glint

/-- Line 132: the horizontal position synthesized by `drift`. -/
def driftX (m : JsMath) (rowCache : Rect) (angle : ℚ) : ℚ :=
  rowCache.left + rowCache.width * (0.5 + m.sin angle * 0.65)

/-- Line 133: the vertical position synthesized by `drift`. -/
def driftY (m : JsMath) (rowCache : Rect) (angle : ℚ) : ℚ :=
  rowCache.top + rowCache.height * (0.4 + m.cos (angle * 0.4) * 0.2)

/-- Lines 129-136: `drift()`. -/
def drift (m : JsMath) (s : State) : State :=
  if !s.isIdle then s
  else
    let angle := s.angle + 0.004
    let s1 := { s with
      angle := angle
      mx := driftX m s.rowCache angle
      my := driftY m s.rowCache angle }
    requestAnimationFrame (scheduleUpdate s1) .drift

/-- Lines 142-145 and 149: the function armed by `setTimeout`. -/
def idleExpired (m : JsMath) (s : State) : State :=
  drift m { s with isIdle := true }

/-- Lines 138-146: `resetIdle()`. -/
def resetIdle (s : State) : State :=
  let s1 := clearTimeout { s with isIdle := false } s.idleTimer
  let s2 := { s1 with rowCache := rowRect s1.page }
  let (s3, id) := setTimeout s2 3000
  { s3 with idleTimer := id }

/-- The state of the host before the script runs. -/
def blank (p : Page) : State :=
  { page := p, now := 0, listeners := [], rafQueue := [], timers := [], nextTimerId := 1,
    writes := [], bars := [], ticking := false, mx := 0, my := 0, sweepStart := none,
    pausing := false, pauseStart := none, idleTimer := 0, angle := 0, isIdle := false,
    rowCache := zeroRect }

/-- Lines 17-153: the script body, run once when the page loads. -/
def init (p : Page) : State :=
  match p.row with
  | none => blank p
  | some _ =>
    let bars := querySelectorAll p Elem.isBar
    if bars.length = 0 then blank p
    else
      let s := { blank p with
        bars := bars
        ticking := false
        mx := p.innerWidth * 0.38
        my := p.innerHeight * 0.3 }
      let s := addEventListener s .trackMouse
      let s := addEventListener s .trackTouch
      let s := { s with sweepStart := none, pausing := false, pauseStart := none }
      let s := requestAnimationFrame s .glint
      let s := { s with angle := 0, isIdle := false, rowCache := rowRect p }
      let s := addEventListener s .cacheRow
      let s := addEventListener s .resetIdle
      let (s, id) := setTimeout s 3000
      let s := { s with idleTimer := id }
      update s

/-- What the host can do to the page after load. -/
inductive Event where
  | mouseMove (clientX clientY : ℚ)
  | touchMove (touches : List (ℚ × ℚ))
  | resize
  | layout (p : Page)
  | frame (ts : ℚ)
  | tick

/-- Run one registered listener on a dispatched event; a listener registered for
another event type does nothing. -/
def runListener (l : Listener) (e : Event) (s : State) : State :=
  match l, e with
  | .trackMouse, .mouseMove x y => scheduleUpdate { s with mx := x, my := y }
  | .trackTouch, .touchMove (t :: _) => scheduleUpdate { s with mx := t.1, my := t.2 }
  | .cacheRow, .resize => { s with rowCache := rowRect s.page }
  | .resetIdle, .mouseMove _ _ => resetIdle s
  | _, _ => s

/-- Dispatch an event to the registered listeners, in registration order. -/
def dispatch (e : Event) (s : State) : State :=
  s.listeners.foldl (fun acc l => runListener l e acc) s

/-- Run one animation-frame callback with the frame timestamp `ts`. -/
def runCallback (m : JsMath) (ts : ℚ) (s : State) (cb : Callback) : State :=
  match cb with
  | .update => update s
  | .glint => glint s ts
  | .drift => drift m s

/-- One animation frame: the callbacks queued so far run in order; those they
request are queued for the next frame. -/
def runFrame (m : JsMath) (ts : ℚ) (s : State) : State :=
  s.rafQueue.foldl (runCallback m ts) { s with rafQueue := [] }

/-- One millisecond passes: the timers that are due are disarmed and run. -/
def runTick (m : JsMath) (s : State) : State :=
  let now := s.now + 1
  let due := s.timers.filter fun t => t.deadline ≤ now
  let s1 := { s with now := now, timers := s.timers.filter fun t => ¬ t.deadline ≤ now }
  due.foldl (fun acc _ => idleExpired m acc) s1

/-- The effect of one host event on the controller. -/
def step (m : JsMath) (s : State) (e : Event) : State :=
  match e with
  | .layout p => { s with page := p }
  | .frame ts => runFrame m ts s
  | .tick => runTick m s
  | e => dispatch e s

/-- The effect of a sequence of host events. -/
def run (m : JsMath) (s : State) (es : List Event) : State :=
  es.foldl (step m) s

/-- The states the controller can be in on page `p`. -/
inductive Reachable (m : JsMath) (p : Page) : State → Prop where
  | init : Reachable m p (init p)
  | step {s : State} (e : Event) : Reachable m p s → Reachable m p (step m s e)

/-! ## Observations on states and event sequences -/

/-- The listeners registered by a page that has the container and at least one target,
in registration order (lines 58, 64, 125, 148). -/
def registered : List Listener :=
  [.trackMouse, .trackTouch, .cacheRow, .resetIdle]

/-- The page has the container element and at least one reflection target, so the script
runs past its two guards (lines 21 and 24). -/
def Page.active (p : Page) : Prop :=
  p.row ≠ none ∧ querySelectorAll p Elem.isBar ≠ []

/-- The number of `update` callbacks pending in the animation-frame queue. -/
def pendingUpdates (s : State) : ℕ := s.rafQueue.count .update

/-- The event is a real pointer input: a mouse-move or a touch-move. -/
def Event.isInput (e : Event) : Bool :=
  match e with
  | .mouseMove _ _ => true
  | .touchMove _ => true
  | _ => false

/-- The event is the passing of one millisecond. -/
def Event.isTick (e : Event) : Bool :=
  match e with
  | .tick => true
  | _ => false

/-- The milliseconds that pass during a sequence of events. -/
def elapsed (es : List Event) : ℕ := es.countP Event.isTick

/-- No mouse-move and no touch-move occurs in the sequence. -/
def quiet (es : List Event) : Prop := ∀ e ∈ es, e.isInput = false

/-- The idle timer is running with `k` milliseconds left and the controller is not idle. -/
def Armed (s : State) (k : ℕ) : Prop :=
  s.listeners = registered ∧ s.isIdle = false ∧ s.timers = [⟨s.idleTimer, s.now + k⟩]

/-- The idle timer has fired and the controller is idle. -/
def Idling (s : State) : Prop :=
  s.listeners = registered ∧ s.isIdle = true ∧ s.timers = []

/-- The part of the state that decides when the controller turns idle: the registered
listeners, the armed timers, the handle in `idleTimer`, the clock and the `isIdle` flag. -/
def idleView (s : State) : List Listener × List Timer × ℕ × ℕ × Bool :=
  (s.listeners, s.timers, s.idleTimer, s.now, s.isIdle)

/-- At most one timer is armed, and `idleTimer` holds its handle. -/
def TimerInv (s : State) : Prop :=
  s.timers = [] ∨ ∃ d, s.timers = [⟨s.idleTimer, d⟩]

/-- The `ticking` flag counts the `update` callbacks that are still to run: the pending
ones and, while a frame is being processed, the `c` ones of that frame not yet run. -/
def FrameInv (c : ℕ) (s : State) : Prop :=
  c + pendingUpdates s = if s.ticking then 1 else 0

/-- The `ticking` flag counts the pending `update` callbacks. -/
def TickInv (s : State) : Prop := FrameInv 0 s

/-- A sample page: a 1000 by 500 container at the viewport origin holding one target that
spans it, in a 1200 by 800 viewport. -/
def samplePage : Page :=
  { row := some ⟨0, 0, 1000, 500⟩
    elems := [⟨true, false, ⟨0, 0, 1000, 500⟩⟩]
    innerWidth := 1200
    innerHeight := 800 }

/-- A sample page without the container element. -/
def bareRowlessPage : Page :=
  { row := none
    elems := [⟨true, false, ⟨0, 0, 1000, 500⟩⟩]
    innerWidth := 1200
    innerHeight := 800 }

/-- A stand-in for `Math.sin` and `Math.cos` that holds the drift at angle zero. -/
def frozenMath : JsMath :=
  { sin := fun _ => 0
    cos := fun _ => 1 }

/-- The sample page left alone for 3000 ms after load. -/
@[irreducible]
def idleSample : State :=
  run frozenMath (init samplePage) (List.replicate 3000 Event.tick)

/-! ## Observations used for the sweep cycle, the drift loop and repeated updates -/

/-- The `setProperty` calls made by one run of `update` (lines 36-54), in order. -/
def updateWrites (s : State) : List StyleWrite :=
  s.bars.flatMap fun i => barWrites i (barStyle s.mx s.my (rowRect s.page) (rectOf s.page i))

/-- Lines 93-94: `raw` for the frame timestamp `ts`, after `sweepStart` has been
defaulted to `ts`. -/
def sweepRaw (sweepStart : Option ℚ) (ts : ℚ) : ℚ :=
  let sweepStart := if falsy sweepStart then ts else sweepStart.getD 0
  min ((ts - sweepStart) / SWEEP) 1

/-- The `setProperty` calls made by `glint` in a frame that places the beam at `px`
(lines 105-110). -/
def beamWritesAt (p : Page) (px : ℚ) : List StyleWrite :=
  (querySelectorAll p fun e => e.isBar || e.isGlint).flatMap (beamWrites p px)

/-- Feed a sequence of frame timestamps to `glint`. -/
def glintRun (s : State) (tss : List ℚ) : State := tss.foldl glint s

/-- The number of `drift` callbacks pending in the animation-frame queue. -/
def pendingDrifts (s : State) : ℕ := s.rafQueue.count .drift

/-- A sample state in the sweeping phase: the sweep started at timestamp 1000. -/
def sweepSample : State :=
  { blank samplePage with sweepStart := some 1000 }

/-- The sample page left alone for 3000 ms, then a mouse-move, then left alone for another
3000 ms, with no animation frame in between. -/
@[irreducible]
def raceSample : State :=
  run frozenMath (init samplePage)
    (List.replicate 3000 Event.tick ++ [Event.mouseMove 1 2] ++ List.replicate 3000 Event.tick)

/-- A stand-in for `Math.sin` and `Math.cos` at the extreme values 1 and -1. -/
def peakMath : JsMath :=
  { sin := fun _ => 1
    cos := fun _ => -1 }

end HeroChrome

namespace HeroChrome

/-! ## Arithmetic of the coordinate mapping and the sweep -/

theorem jsDiv_of_ne (a : ℚ) {b : ℚ} (hb : b ≠ 0) : jsDiv a b = some (a / b) := by
  simp [jsDiv, hb]

theorem localX_self (mx : ℚ) (rowRect : Rect) (hw : rowRect.width ≠ 0) :
    localX mx rowRect rowRect = some ((mx - rowRect.left) / rowRect.width * 100) := by
  have h1 : (rowRect.left + rowRect.width - rowRect.left) / rowRect.width = 1 := by
    field_simp
  simp [localX, globalX, jsDiv, hw, Rect.right, h1]

theorem localY_self (my : ℚ) (rowRect : Rect) (hh : rowRect.height ≠ 0) :
    localY my rowRect rowRect = some ((my - rowRect.top) / rowRect.height * 100) := by
  have h1 : (rowRect.top + rowRect.height - rowRect.top) / rowRect.height = 1 := by
    field_simp
  simp [localY, globalY, jsDiv, hh, Rect.bottom, h1]

theorem opacity_ge (lx : ℚ) : 0.2 ≤ opacity lx := by
  unfold opacity
  exact le_max_left _ _

theorem opacity_le (lx : ℚ) : opacity lx ≤ 1 := by
  unfold opacity
  have h : 0 ≤ |lx - 50| := abs_nonneg _
  apply max_le
  · norm_num
  · have : 0 ≤ |lx - 50| / 50 * 0.5 := by positivity
    linarith

theorem opacity_antitone {lx1 lx2 : ℚ} (h : |lx1 - 50| ≤ |lx2 - 50|) :
    opacity lx2 ≤ opacity lx1 := by
  unfold opacity
  apply max_le_max le_rfl
  have : |lx1 - 50| / 50 * 0.5 ≤ |lx2 - 50| / 50 * 0.5 := by
    have h5 : (0 : ℚ) ≤ 0.5 := by norm_num
    have h50 : (0 : ℚ) ≤ 50 := by norm_num
    exact mul_le_mul_of_nonneg_right (div_le_div_of_nonneg_right h h50) h5
  linarith

theorem toFixed_of_nonneg {x : ℚ} (hx : 0 ≤ x) (digits : ℕ) :
    toFixed x digits = ((⌊x * 10 ^ digits + 1 / 2⌋ : ℤ) : ℚ) / 10 ^ digits := by
  simp [toFixed, not_lt.mpr hx]

theorem toFixed_mono {x y : ℚ} (hx : 0 ≤ x) (hxy : x ≤ y) (digits : ℕ) :
    toFixed x digits ≤ toFixed y digits := by
  rw [toFixed_of_nonneg hx, toFixed_of_nonneg (hx.trans hxy)]
  have hp : (0 : ℚ) < 10 ^ digits := by positivity
  apply div_le_div_of_nonneg_right _ hp.le
  have : x * 10 ^ digits + 1 / 2 ≤ y * 10 ^ digits + 1 / 2 := by
    have := mul_le_mul_of_nonneg_right hxy hp.le
    linarith
  exact_mod_cast Int.floor_mono this

theorem toFixed_one_two : toFixed 1 2 = 1 := by
  rw [toFixed_of_nonneg (by norm_num)]
  have : ⌊(1 : ℚ) * 10 ^ 2 + 1 / 2⌋ = 100 := by
    rw [Int.floor_eq_iff]; norm_num
  rw [this]; norm_num

theorem toFixed_fifth_two : toFixed 0.2 2 = 0.2 := by
  rw [toFixed_of_nonneg (by norm_num)]
  have : ⌊(0.2 : ℚ) * 10 ^ 2 + 1 / 2⌋ = 20 := by
    rw [Int.floor_eq_iff]; norm_num
  rw [this]; norm_num

theorem ease_zero : ease 0 = 0 := by
  norm_num [ease]

theorem ease_half : ease 0.5 = 0.5 := by
  norm_num [ease]

theorem ease_one : ease 1 = 1 := by
  norm_num [ease]

theorem ease_strictMono {a b : ℚ} (ha : 0 ≤ a) (hab : a < b) (hb : b ≤ 1) :
    ease a < ease b := by
  unfold ease
  have e : (0.5 : ℚ) = 1 / 2 := by norm_num
  rw [e]
  split_ifs with h1 h2 h2
  · nlinarith
  · push_neg at h2
    nlinarith [mul_nonneg ha ha, mul_nonneg (sub_nonneg.mpr hb) (sub_nonneg.mpr hb)]
  · linarith
  · push_neg at h1 h2
    nlinarith

end HeroChrome

namespace HeroChrome

/-! ## The controller as a state machine: basic facts -/

theorem run_nil (m : JsMath) (s : State) : run m s [] = s := rfl

theorem run_cons (m : JsMath) (s : State) (e : Event) (es : List Event) :
    run m s (e :: es) = run m (step m s e) es := rfl

theorem run_append (m : JsMath) (s : State) (es fs : List Event) :
    run m s (es ++ fs) = run m (run m s es) fs := by
  simp [run, List.foldl_append]

theorem reachable_run {m : JsMath} {p : Page} {s : State} (h : Reachable m p s)
    (es : List Event) : Reachable m p (run m s es) := by
  induction es generalizing s with
  | nil => exact h
  | cons e es ih => exact ih (Reachable.step e h)

theorem init_of_inactive {p : Page} (h : p.row = none ∨ querySelectorAll p Elem.isBar = []) :
    init p = blank p := by
  unfold init
  rcases h with h | h
  · simp [h]
  · cases p.row <;> simp [h]

theorem init_of_active {p : Page} (h : p.active) :
    init p = update { blank p with
      listeners := registered
      rafQueue := [.glint]
      timers := [⟨1, 3000⟩]
      nextTimerId := 2
      bars := querySelectorAll p Elem.isBar
      mx := p.innerWidth * 0.38
      my := p.innerHeight * 0.3
      idleTimer := 1
      rowCache := rowRect p } := by
  obtain ⟨h1, h2⟩ := h
  unfold init
  cases hr : p.row with
  | none => exact absurd hr h1
  | some r =>
    have h3 : ¬ (querySelectorAll p Elem.isBar).length = 0 := by
      simpa [List.length_eq_zero] using h2
    simp only [h3, if_false]
    rfl


theorem foldl_invariant {α β : Type} (P : α → Prop) (f : α → β → α)
    (hf : ∀ a b, P a → P (f a b)) (l : List β) (a : α) (ha : P a) : P (l.foldl f a) := by
  induction l generalizing a with
  | nil => exact ha
  | cons b l ih => exact ih _ (hf a b ha)

/-! ### What each function does to the idle machinery -/

theorem idleView_update (s : State) : idleView (update s) = idleView s := rfl

theorem idleView_scheduleUpdate (s : State) : idleView (scheduleUpdate s) = idleView s := by
  unfold scheduleUpdate
  split_ifs <;> rfl

theorem idleView_glint (s : State) (ts : ℚ) : idleView (glint s ts) = idleView s := by
  unfold glint
  by_cases hp : s.pausing = true
  · simp only [hp, if_true]
    split_ifs <;> rfl
  · simp only [hp, if_false]
    split_ifs <;> rfl

theorem idleView_drift (m : JsMath) (s : State) : idleView (drift m s) = idleView s := by
  unfold drift
  split_ifs
  · rfl
  · show idleView (scheduleUpdate _) = _
    rw [idleView_scheduleUpdate]
    rfl

theorem idleView_runCallback (m : JsMath) (ts : ℚ) (s : State) (cb : Callback) :
    idleView (runCallback m ts s cb) = idleView s := by
  cases cb
  · exact idleView_update s
  · exact idleView_glint s ts
  · exact idleView_drift m s

theorem idleView_runFrame (m : JsMath) (ts : ℚ) (s : State) :
    idleView (runFrame m ts s) = idleView s := by
  unfold runFrame
  have h : idleView { s with rafQueue := [] } = idleView s := rfl
  rw [← h]
  exact foldl_invariant (fun t => idleView t = idleView { s with rafQueue := [] }) _
    (fun a b ha => (idleView_runCallback m ts a b).trans ha) _ _ rfl

theorem idleView_idleExpired (m : JsMath) (s : State) :
    idleView (idleExpired m s) = (s.listeners, s.timers, s.idleTimer, s.now, true) := by
  unfold idleExpired
  rw [idleView_drift]
  rfl


theorem armed_of_idleView_eq {s t : State} {k : ℕ} (h : idleView t = idleView s)
    (hs : Armed s k) : Armed t k := by
  simp only [idleView, Prod.mk.injEq] at h
  obtain ⟨h1, h2, h3, h4, h5⟩ := h
  obtain ⟨a1, a2, a3⟩ := hs
  exact ⟨h1.trans a1, h5.trans a2, by rw [h2, h3, h4, a3]⟩

theorem idling_of_idleView_eq {s t : State} (h : idleView t = idleView s)
    (hs : Idling s) : Idling t := by
  simp only [idleView, Prod.mk.injEq] at h
  obtain ⟨h1, h2, _, _, h5⟩ := h
  obtain ⟨a1, a2, a3⟩ := hs
  exact ⟨h1.trans a1, h5.trans a2, h2.trans a3⟩

theorem timerInv_of_idleView_eq {s t : State} (h : idleView t = idleView s)
    (hs : TimerInv s) : TimerInv t := by
  simp only [idleView, Prod.mk.injEq] at h
  obtain ⟨_, h2, h3, _, _⟩ := h
  unfold TimerInv at *
  rw [h2, h3]
  exact hs

/-! ### Dispatch to the registered listeners -/

theorem dispatch_mouseMove {s : State} (h : s.listeners = registered) (x y : ℚ) :
    dispatch (.mouseMove x y) s = resetIdle (scheduleUpdate { s with mx := x, my := y }) := by
  have key : ∀ L : List Listener, L = registered →
      L.foldl (fun acc l => runListener l (.mouseMove x y) acc) s
        = resetIdle (scheduleUpdate { s with mx := x, my := y }) := by
    intro L hL
    subst hL
    rfl
  exact key _ h

theorem dispatch_touchMove {s : State} (h : s.listeners = registered) (t : ℚ × ℚ)
    (ts : List (ℚ × ℚ)) :
    dispatch (.touchMove (t :: ts)) s = scheduleUpdate { s with mx := t.1, my := t.2 } := by
  have key : ∀ L : List Listener, L = registered →
      L.foldl (fun acc l => runListener l (.touchMove (t :: ts)) acc) s
        = scheduleUpdate { s with mx := t.1, my := t.2 } := by
    intro L hL
    subst hL
    rfl
  exact key _ h

theorem dispatch_resize {s : State} (h : s.listeners = registered) :
    dispatch .resize s = { s with rowCache := rowRect s.page } := by
  have key : ∀ L : List Listener, L = registered →
      L.foldl (fun acc l => runListener l .resize acc) s
        = { s with rowCache := rowRect s.page } := by
    intro L hL
    subst hL
    rfl
  exact key _ h

theorem step_touchMove (m : JsMath) {s : State} (h : s.listeners = registered) (t : ℚ × ℚ)
    (ts : List (ℚ × ℚ)) :
    step m s (.touchMove (t :: ts)) = scheduleUpdate { s with mx := t.1, my := t.2 } :=
  dispatch_touchMove h t ts

theorem idleView_resetIdle {s : State} (h : TimerInv s) :
    idleView (resetIdle s)
      = (s.listeners, [⟨s.nextTimerId, s.now + 3000⟩], s.nextTimerId, s.now, false) := by
  rcases h with h | ⟨d, h⟩
  · simp [idleView, resetIdle, clearTimeout, setTimeout, h]
  · simp [idleView, resetIdle, clearTimeout, setTimeout, h]

theorem timerInv_resetIdle {s : State} (h : TimerInv s) : TimerInv (resetIdle s) := by
  have e := idleView_resetIdle h
  simp only [idleView, Prod.mk.injEq] at e
  exact Or.inr ⟨_, by rw [e.2.1, e.2.2.1]⟩

theorem timerInv_runListener (l : Listener) (e : Event) {s : State} (h : TimerInv s) :
    TimerInv (runListener l e s) := by
  cases l <;> cases e <;> try exact h
  · exact timerInv_of_idleView_eq (idleView_scheduleUpdate _) h
  · rename_i touches
    cases touches with
    | nil => exact h
    | cons t ts => exact timerInv_of_idleView_eq (idleView_scheduleUpdate _) h
  · exact timerInv_resetIdle h

theorem listeners_runListener (l : Listener) (e : Event) (s : State) :
    (runListener l e s).listeners = s.listeners := by
  cases l <;> cases e <;> try rfl
  · exact congrArg Prod.fst (idleView_scheduleUpdate _)
  · rename_i touches
    cases touches with
    | nil => rfl
    | cons t ts => exact congrArg Prod.fst (idleView_scheduleUpdate _)

/-! ### The clock -/

theorem runTick_no_timers (m : JsMath) {s : State} (h : s.timers = []) :
    runTick m s = { s with now := s.now + 1 } := by
  cases s
  simp only at h
  subst h
  rfl

theorem runTick_not_due (m : JsMath) {s : State} {i d : ℕ} (h : s.timers = [⟨i, d⟩])
    (hd : s.now + 1 < d) : runTick m s = { s with now := s.now + 1 } := by
  cases s
  simp only at h hd
  subst h
  simp [runTick, hd, not_le.mpr hd]

theorem runTick_due (m : JsMath) {s : State} {i d : ℕ} (h : s.timers = [⟨i, d⟩])
    (hd : d ≤ s.now + 1) :
    runTick m s = idleExpired m { s with now := s.now + 1, timers := [] } := by
  cases s
  simp only at h hd
  subst h
  simp [runTick, hd]

theorem timerInv_runTick (m : JsMath) {s : State} (h : TimerInv s) : TimerInv (runTick m s) := by
  rcases h with h | ⟨d, h⟩
  · rw [runTick_no_timers m h]
    exact Or.inl h
  · by_cases hd : d ≤ s.now + 1
    · rw [runTick_due m h hd]
      left
      have e := idleView_idleExpired m { s with now := s.now + 1, timers := [] }
      simp only [idleView, Prod.mk.injEq] at e
      exact e.2.1
    · rw [runTick_not_due m h (not_le.mp hd)]
      exact Or.inr ⟨d, h⟩

theorem listeners_runTick (m : JsMath) (s : State) :
    (runTick m s).listeners = s.listeners := by
  show (List.foldl (fun acc _ => idleExpired m acc) _ _).listeners = s.listeners
  refine foldl_invariant (fun t => t.listeners = s.listeners) _
    (fun a _ ha => (congrArg Prod.fst (idleView_idleExpired m a)).trans ha) _ _ ?_
  rfl

theorem listeners_step (m : JsMath) (s : State) (e : Event) :
    (step m s e).listeners = s.listeners := by
  have hd : ∀ e, (dispatch e s).listeners = s.listeners := fun e =>
    foldl_invariant (fun t => t.listeners = s.listeners) _
      (fun a l ha => (listeners_runListener l e a).trans ha) _ _ rfl
  cases e
  · exact hd _
  · exact hd _
  · exact hd _
  · rfl
  · exact congrArg Prod.fst (idleView_runFrame m _ s)
  · exact listeners_runTick m s

theorem timerInv_step (m : JsMath) {s : State} (e : Event) (h : TimerInv s) :
    TimerInv (step m s e) := by
  have hd : ∀ e, TimerInv (dispatch e s) := fun e =>
    foldl_invariant TimerInv _ (fun a l ha => timerInv_runListener l e ha) _ _ h
  cases e
  · exact hd _
  · exact hd _
  · exact hd _
  · exact h
  · exact timerInv_of_idleView_eq (idleView_runFrame m _ s) h
  · exact timerInv_runTick m h

theorem timerInv_init (p : Page) : TimerInv (init p) := by
  by_cases h : p.active
  · rw [init_of_active h]
    exact Or.inr ⟨3000, rfl⟩
  · have h2 : p.row = none ∨ querySelectorAll p Elem.isBar = [] := by
      unfold Page.active at h
      by_contra hc
      push_neg at hc
      exact h hc
    rw [init_of_inactive h2]
    exact Or.inl rfl

theorem timerInv_of_reachable {m : JsMath} {p : Page} {s : State} (h : Reachable m p s) :
    TimerInv s := by
  induction h with
  | init => exact timerInv_init p
  | step e _ ih => exact timerInv_step m e ih

theorem listeners_of_reachable {m : JsMath} {p : Page} (hp : p.active) {s : State}
    (h : Reachable m p s) : s.listeners = registered := by
  induction h with
  | init => rw [init_of_active hp]; rfl
  | step e _ ih => rw [listeners_step]; exact ih


/-! ### Quiet periods: no mouse-move and no touch-move -/

theorem quiet_cons {e : Event} {es : List Event} (h : quiet (e :: es)) :
    e.isInput = false ∧ quiet es :=
  ⟨h e (List.mem_cons_self e es), fun x hx => h x (List.mem_cons_of_mem e hx)⟩

theorem elapsed_cons (e : Event) (es : List Event) :
    elapsed (e :: es) = elapsed es + if e.isTick then 1 else 0 := by
  simp [elapsed, List.countP_cons]

theorem idleView_step_quiet (m : JsMath) {s : State} (hl : s.listeners = registered)
    {e : Event} (hq : e.isInput = false) (ht : e.isTick = false) :
    idleView (step m s e) = idleView s := by
  cases e with
  | mouseMove x y => simp [Event.isInput] at hq
  | touchMove ts => simp [Event.isInput] at hq
  | resize =>
    show idleView (dispatch .resize s) = _
    rw [dispatch_resize hl]
    rfl
  | layout p => rfl
  | frame ts => exact idleView_runFrame m ts s
  | tick => simp [Event.isTick] at ht

theorem idling_step_quiet (m : JsMath) {s : State} (h : Idling s) {e : Event}
    (hq : e.isInput = false) : Idling (step m s e) := by
  by_cases ht : e.isTick = true
  · cases e <;> simp [Event.isTick] at ht
    show Idling (runTick m s)
    rw [runTick_no_timers m h.2.2]
    exact h
  · exact idling_of_idleView_eq (idleView_step_quiet m h.1 hq (by simpa using ht)) h

theorem idling_run_quiet (m : JsMath) {s : State} (h : Idling s) {es : List Event}
    (hq : quiet es) : Idling (run m s es) := by
  induction es generalizing s with
  | nil => exact h
  | cons e es ih =>
    obtain ⟨h1, h2⟩ := quiet_cons hq
    exact ih (idling_step_quiet m h h1) h2

theorem armed_tick_last (m : JsMath) {s : State} (h : Armed s 1) : Idling (runTick m s) := by
  obtain ⟨h1, _, h3⟩ := h
  rw [runTick_due m h3 le_rfl]
  have e := idleView_idleExpired m { s with now := s.now + 1, timers := [] }
  simp only [idleView, Prod.mk.injEq] at e
  exact ⟨e.1.trans h1, e.2.2.2.2, e.2.1⟩

theorem armed_tick_more (m : JsMath) {s : State} {k : ℕ} (h : Armed s (k + 2)) :
    Armed (runTick m s) (k + 1) := by
  obtain ⟨h1, h2, h3⟩ := h
  rw [runTick_not_due m h3 (by omega)]
  refine ⟨h1, h2, ?_⟩
  show s.timers = [⟨s.idleTimer, s.now + 1 + (k + 1)⟩]
  rw [h3]
  congr 2
  omega

theorem armed_run_quiet (m : JsMath) {es : List Event} (hq : quiet es) {s : State} {k : ℕ}
    (h : Armed s (k + 1)) :
    if elapsed es ≤ k then Armed (run m s es) (k + 1 - elapsed es) else Idling (run m s es) := by
  induction es generalizing s k with
  | nil => simpa [elapsed, run] using h
  | cons e es ih =>
    obtain ⟨h1, h2⟩ := quiet_cons hq
    rw [run_cons, elapsed_cons]
    by_cases ht : e.isTick = true
    · have he : e = .tick := by cases e <;> simp [Event.isTick] at ht; rfl
      subst he
      simp only [Event.isTick, if_true]
      cases k with
      | zero =>
        have hi : Idling (run m (step m s .tick) es) :=
          idling_run_quiet m (armed_tick_last m h) h2
        simpa using hi
      | succ k =>
        have ha : Armed (step m s .tick) (k + 1) := armed_tick_more m h
        have := ih h2 ha
        by_cases hk : elapsed es ≤ k
        · have hk2 : elapsed es + 1 ≤ k + 1 := by omega
          simp only [hk, hk2, if_true] at this ⊢
          have e3 : k + 1 + 1 - (elapsed es + 1) = k + 1 - elapsed es := by omega
          rw [e3]
          exact this
        · have hk2 : ¬ elapsed es + 1 ≤ k + 1 := by omega
          simp only [hk, hk2, if_false] at this ⊢
          exact this
    · have ht2 : e.isTick = false := by simpa using ht
      have ha : Armed (step m s e) (k + 1) :=
        armed_of_idleView_eq (idleView_step_quiet m h.1 h1 ht2) h
      simpa [ht2] using ih h2 ha

theorem isIdle_run_quiet (m : JsMath) {es : List Event} (hq : quiet es) {s : State}
    (h : Armed s 3000) : (run m s es).isIdle = decide (3000 ≤ elapsed es) := by
  have := armed_run_quiet m hq (k := 2999) h
  by_cases hk : elapsed es ≤ 2999
  · rw [if_pos hk] at this
    rw [this.2.1]
    simp
    omega
  · rw [if_neg hk] at this
    rw [this.2.1]
    simp
    omega

theorem armed_init {p : Page} (hp : p.active) : Armed (init p) 3000 := by
  rw [init_of_active hp]
  exact ⟨rfl, rfl, rfl⟩

theorem armed_mouseMove {m : JsMath} {p : Page} (hp : p.active) {s : State}
    (h : Reachable m p s) (x y : ℚ) : Armed (step m s (.mouseMove x y)) 3000 := by
  have hl := listeners_of_reachable hp h
  have ht : TimerInv (scheduleUpdate { s with mx := x, my := y }) :=
    timerInv_of_idleView_eq ((idleView_scheduleUpdate _).trans
      (show idleView { s with mx := x, my := y } = idleView s from rfl))
      (timerInv_of_reachable h)
  show Armed (dispatch (.mouseMove x y) s) 3000
  rw [dispatch_mouseMove hl]
  have e := idleView_resetIdle ht
  have e0 := idleView_scheduleUpdate { s with mx := x, my := y }
  simp only [idleView, Prod.mk.injEq] at e e0
  refine ⟨e.1.trans (e0.1.trans hl), e.2.2.2.2, ?_⟩
  rw [e.2.1, e.2.2.1, e.2.2.2.1]


/-! ### The `ticking` flag and the pending `update` callbacks -/

theorem frameInv_congr {c : ℕ} {s t : State} (hq : pendingUpdates t = pendingUpdates s)
    (ht : t.ticking = s.ticking) (h : FrameInv c s) : FrameInv c t := by
  unfold FrameInv at *
  rw [hq, ht]
  exact h

theorem pendingUpdates_raf_glint (s : State) :
    pendingUpdates (requestAnimationFrame s .glint) = pendingUpdates s := by
  simp [pendingUpdates, requestAnimationFrame, List.count_append]

theorem pendingUpdates_raf_drift (s : State) :
    pendingUpdates (requestAnimationFrame s .drift) = pendingUpdates s := by
  simp [pendingUpdates, requestAnimationFrame, List.count_append]

theorem frameInv_scheduleUpdate {c : ℕ} {s : State} (h : FrameInv c s) :
    FrameInv c (scheduleUpdate s) := by
  unfold scheduleUpdate
  cases ht : s.ticking
  · simp only [FrameInv, ht] at h
    simp [FrameInv, pendingUpdates, requestAnimationFrame, List.count_append] at h ⊢
    omega
  · simpa using h

theorem rafQueue_glint (s : State) (ts : ℚ) :
    (glint s ts).rafQueue = s.rafQueue ++ [.glint] := by
  unfold glint
  by_cases hp : s.pausing = true
  · simp only [hp, if_true]
    split_ifs <;> rfl
  · simp only [hp, if_false]
    split_ifs <;> rfl

theorem ticking_glint (s : State) (ts : ℚ) : (glint s ts).ticking = s.ticking := by
  unfold glint
  by_cases hp : s.pausing = true
  · simp only [hp, if_true]
    split_ifs <;> rfl
  · simp only [hp, if_false]
    split_ifs <;> rfl

theorem frameInv_glint {c : ℕ} {s : State} (ts : ℚ) (h : FrameInv c s) :
    FrameInv c (glint s ts) := by
  refine frameInv_congr ?_ (ticking_glint s ts) h
  simp [pendingUpdates, rafQueue_glint, List.count_append]

theorem frameInv_drift (m : JsMath) {c : ℕ} {s : State} (h : FrameInv c s) :
    FrameInv c (drift m s) := by
  unfold drift
  split_ifs
  · exact h
  · have h1 : FrameInv c (scheduleUpdate { s with
        angle := s.angle + 0.004
        mx := driftX m s.rowCache (s.angle + 0.004)
        my := driftY m s.rowCache (s.angle + 0.004) }) :=
      frameInv_scheduleUpdate (frameInv_congr rfl rfl h)
    exact frameInv_congr (pendingUpdates_raf_drift _) rfl h1

theorem frameInv_update {c : ℕ} {s : State} (h : FrameInv (c + 1) s) :
    FrameInv c (update s) := by
  unfold FrameInv at *
  have hq : pendingUpdates (update s) = pendingUpdates s := rfl
  have ht : (update s).ticking = false := rfl
  rw [hq, ht]
  cases hs : s.ticking
  · simp [hs] at h
  · simp only [hs, if_true] at h
    simp only [Bool.false_eq_true, if_false]
    omega

theorem frameInv_foldl (m : JsMath) (ts : ℚ) (rest : List Callback) {s : State}
    (h : FrameInv (rest.count .update) s) : TickInv (rest.foldl (runCallback m ts) s) := by
  induction rest generalizing s with
  | nil => exact h
  | cons cb rest ih =>
    apply ih
    cases cb
    · rw [List.count_cons_self] at h
      exact frameInv_update h
    · rw [List.count_cons_of_ne (by decide)] at h
      exact frameInv_glint ts h
    · rw [List.count_cons_of_ne (by decide)] at h
      exact frameInv_drift m h

theorem tickInv_runFrame (m : JsMath) (ts : ℚ) {s : State} (h : TickInv s) :
    TickInv (runFrame m ts s) := by
  apply frameInv_foldl
  unfold TickInv FrameInv at h
  unfold FrameInv
  have : pendingUpdates { s with rafQueue := [] } = 0 := rfl
  rw [this]
  simpa [pendingUpdates] using h

theorem tickInv_idleExpired (m : JsMath) {s : State} (h : TickInv s) :
    TickInv (idleExpired m s) :=
  frameInv_drift m (frameInv_congr rfl rfl h)

theorem tickInv_runTick (m : JsMath) {s : State} (h : TickInv s) : TickInv (runTick m s) := by
  show TickInv (List.foldl (fun acc _ => idleExpired m acc) _ _)
  refine foldl_invariant TickInv _ (fun a _ ha => tickInv_idleExpired m ha) _ _ ?_
  exact frameInv_congr rfl rfl h

theorem tickInv_runListener (l : Listener) (e : Event) {s : State} (h : TickInv s) :
    TickInv (runListener l e s) := by
  cases l <;> cases e <;> try exact h
  · exact frameInv_scheduleUpdate (frameInv_congr rfl rfl h)
  · rename_i touches
    cases touches with
    | nil => exact h
    | cons t ts => exact frameInv_scheduleUpdate (frameInv_congr rfl rfl h)

theorem tickInv_step (m : JsMath) {s : State} (e : Event) (h : TickInv s) :
    TickInv (step m s e) := by
  have hd : ∀ e, TickInv (dispatch e s) := fun e =>
    foldl_invariant TickInv _ (fun a l ha => tickInv_runListener l e ha) _ _ h
  cases e
  · exact hd _
  · exact hd _
  · exact hd _
  · exact frameInv_congr rfl rfl h
  · exact tickInv_runFrame m _ h
  · exact tickInv_runTick m h

theorem tickInv_init (p : Page) : TickInv (init p) := by
  by_cases h : p.active
  · rw [init_of_active h]
    show 0 + List.count Callback.update [Callback.glint] = 0
    decide
  · have h2 : p.row = none ∨ querySelectorAll p Elem.isBar = [] := by
      unfold Page.active at h
      by_contra hc
      push_neg at hc
      exact h hc
    rw [init_of_inactive h2]
    show 0 + List.count Callback.update [] = 0
    decide

theorem tickInv_of_reachable {m : JsMath} {p : Page} {s : State} (h : Reachable m p s) :
    TickInv s := by
  induction h with
  | init => exact tickInv_init p
  | step e _ ih => exact tickInv_step m e ih

/-! ### A page without the container or without targets -/

theorem step_of_unregistered (m : JsMath) {s : State} (h1 : s.listeners = [])
    (h2 : s.rafQueue = []) (h3 : s.timers = []) (e : Event) :
    (step m s e).listeners = [] ∧ (step m s e).rafQueue = [] ∧ (step m s e).timers = [] ∧
      (step m s e).writes = s.writes := by
  have hd : ∀ e, dispatch e s = s := fun e => by
    unfold dispatch
    rw [h1, List.foldl_nil]
  cases e with
  | mouseMove x y =>
    have hs : step m s (.mouseMove x y) = s := hd _
    rw [hs]; exact ⟨h1, h2, h3, rfl⟩
  | touchMove ts =>
    have hs : step m s (.touchMove ts) = s := hd _
    rw [hs]; exact ⟨h1, h2, h3, rfl⟩
  | resize =>
    have hs : step m s .resize = s := hd _
    rw [hs]; exact ⟨h1, h2, h3, rfl⟩
  | layout p => exact ⟨h1, h2, h3, rfl⟩
  | frame ts =>
    have hs : step m s (.frame ts) = s := by
      show runFrame m ts s = s
      unfold runFrame
      rw [h2, List.foldl_nil, ← h2]
    rw [hs]; exact ⟨h1, h2, h3, rfl⟩
  | tick =>
    have hs : step m s .tick = { s with now := s.now + 1 } := runTick_no_timers m h3
    rw [hs]; exact ⟨h1, h2, h3, rfl⟩

theorem run_of_unregistered (m : JsMath) (es : List Event) {s : State} (h1 : s.listeners = [])
    (h2 : s.rafQueue = []) (h3 : s.timers = []) :
    (run m s es).listeners = [] ∧ (run m s es).rafQueue = [] ∧ (run m s es).timers = [] ∧
      (run m s es).writes = s.writes := by
  induction es generalizing s with
  | nil => exact ⟨h1, h2, h3, rfl⟩
  | cons e es ih =>
    obtain ⟨a1, a2, a3, a4⟩ := step_of_unregistered m h1 h2 h3 e
    rw [run_cons, ← a4]
    exact ih a1 a2 a3


/-! ### Sample runs -/

theorem samplePage_active : samplePage.active :=
  ⟨by simp [samplePage], by decide⟩

theorem quiet_replicate_tick (n : ℕ) : quiet (List.replicate n Event.tick) := by
  intro e he
  rw [List.eq_of_mem_replicate he]
  rfl

theorem elapsed_replicate_tick (n : ℕ) : elapsed (List.replicate n Event.tick) = n := by
  induction n with
  | zero => rfl
  | succ n ih => rw [List.replicate_succ, elapsed_cons, ih]; rfl

theorem run_ticks_not_due (m : JsMath) (n : ℕ) {s : State} {i d : ℕ}
    (h : s.timers = [⟨i, d⟩]) (hd : s.now + n < d) :
    run m s (List.replicate n Event.tick) = { s with now := s.now + n } := by
  induction n generalizing s with
  | zero => rfl
  | succ n ih =>
    rw [List.replicate_succ, run_cons]
    have hs : step m s .tick = { s with now := s.now + 1 } :=
      runTick_not_due m h (by omega)
    rw [hs, ih (s := { s with now := s.now + 1 }) h (by simp only; omega)]
    simp only [State.mk.injEq, true_and, and_true]
    omega

theorem mx_scheduleUpdate (s : State) :
    (scheduleUpdate s).mx = s.mx ∧ (scheduleUpdate s).my = s.my := by
  unfold scheduleUpdate
  split_ifs <;> exact ⟨rfl, rfl⟩

theorem ticking_scheduleUpdate (s : State) : (scheduleUpdate s).ticking = true := by
  unfold scheduleUpdate
  cases h : s.ticking <;> simp [h]

theorem isIdle_idleExpired (m : JsMath) (s : State) : (idleExpired m s).isIdle = true :=
  congrArg (fun v => v.2.2.2.2) (idleView_idleExpired m s)

theorem isIdle_scheduleUpdate (s : State) : (scheduleUpdate s).isIdle = s.isIdle :=
  congrArg (fun v => v.2.2.2.2) (idleView_scheduleUpdate s)

theorem mx_idleExpired (m : JsMath) (s : State) :
    (idleExpired m s).mx = driftX m s.rowCache (s.angle + 0.004) ∧
    (idleExpired m s).my = driftY m s.rowCache (s.angle + 0.004) := by
  unfold idleExpired drift
  simp only [Bool.not_true, Bool.false_eq_true, if_false]
  exact ⟨(mx_scheduleUpdate _).1, (mx_scheduleUpdate _).2⟩

theorem rowCache_init {p : Page} (hp : p.active) :
    (init p).rowCache = rowRect p ∧ (init p).angle = 0 := by
  rw [init_of_active hp]
  exact ⟨rfl, rfl⟩

theorem touchMove_fields (m : JsMath) {s : State} (h : s.listeners = registered) (x y : ℚ)
    (ts : List (ℚ × ℚ)) :
    (step m s (.touchMove ((x, y) :: ts))).isIdle = s.isIdle ∧
    (step m s (.touchMove ((x, y) :: ts))).mx = x ∧
    (step m s (.touchMove ((x, y) :: ts))).my = y ∧
    (step m s (.touchMove ((x, y) :: ts))).ticking = true := by
  rw [step_touchMove m h]
  exact ⟨isIdle_scheduleUpdate _, (mx_scheduleUpdate _).1, (mx_scheduleUpdate _).2,
    ticking_scheduleUpdate _⟩

theorem pendingUpdates_of_ticking {s : State} (h : TickInv s) (ht : s.ticking = true) :
    pendingUpdates s = 1 := by
  unfold TickInv FrameInv at h
  rw [ht] at h
  simpa using h

theorem idleSample_eq :
    idleSample = idleExpired frozenMath { init samplePage with now := 3000, timers := [] } := by
  have hi := init_of_active samplePage_active
  have ht : (init samplePage).timers = [⟨1, 3000⟩] := by rw [hi]; rfl
  have hn : (init samplePage).now = 0 := by rw [hi]; rfl
  have h1 : run frozenMath (init samplePage) (List.replicate 2999 Event.tick)
      = { init samplePage with now := (init samplePage).now + 2999 } :=
    run_ticks_not_due frozenMath 2999 ht (by rw [hn]; norm_num)
  have e : List.replicate 3000 Event.tick = List.replicate 2999 Event.tick ++ [Event.tick] :=
    List.replicate_succ' 2999 Event.tick
  unfold idleSample
  rw [e, run_append, h1, run_cons, run_nil]
  show runTick frozenMath _ = _
  rw [runTick_due frozenMath (s := { init samplePage with now := (init samplePage).now + 2999 })
    ht (by simp only [hn]; norm_num)]
  simp only [hn]

theorem idleSample_reachable : Reachable frozenMath samplePage idleSample := by
  unfold idleSample
  exact reachable_run Reachable.init _

end HeroChrome

namespace HeroChrome

/-! ## `glint` frame by frame -/

theorem glint_pause_stay {s : State} {ts : ℚ} (hp : s.pausing = true)
    (h : ¬ ts - (if falsy s.pauseStart then ts else s.pauseStart.getD 0) ≥ PAUSE) :
    glint s ts = requestAnimationFrame
      { s with pauseStart := some (if falsy s.pauseStart then ts else s.pauseStart.getD 0) }
      .glint := by
  unfold glint
  simp only [hp, if_true, h, if_false]

theorem glint_pause_end {s : State} {ts : ℚ} (hp : s.pausing = true)
    (h : ts - (if falsy s.pauseStart then ts else s.pauseStart.getD 0) ≥ PAUSE) :
    glint s ts = requestAnimationFrame
      { s with pausing := false, pauseStart := none, sweepStart := none } .glint := by
  unfold glint
  simp only [hp, if_true, h]

theorem glint_sweep {s : State} (ts : ℚ) (hp : s.pausing = false) :
    (glint s ts).writes
        = s.writes ++ beamWritesAt s.page (beamPx s.page.innerWidth (sweepRaw s.sweepStart ts)) ∧
    (glint s ts).pausing = decide (1 ≤ sweepRaw s.sweepStart ts) ∧
    (glint s ts).sweepStart = some (if falsy s.sweepStart then ts else s.sweepStart.getD 0) ∧
    (glint s ts).pauseStart = s.pauseStart := by
  unfold glint
  simp only [hp, Bool.false_eq_true, if_false]
  by_cases h : 1 ≤ sweepRaw s.sweepStart ts
  · have h2 : min ((ts - (if falsy s.sweepStart then ts else s.sweepStart.getD 0)) / SWEEP) 1 ≥ 1 := h
    simp only [h2, if_true, h, decide_True]
    exact ⟨rfl, rfl, rfl, rfl⟩
  · have h2 : ¬ min ((ts - (if falsy s.sweepStart then ts else s.sweepStart.getD 0)) / SWEEP) 1 ≥ 1 := h
    simp only [h2, if_false, h, decide_False]
    exact ⟨rfl, rfl, rfl, rfl⟩


theorem glintRun_nil (s : State) : glintRun s [] = s := rfl

theorem glintRun_cons (s : State) (ts : ℚ) (tss : List ℚ) :
    glintRun s (ts :: tss) = glintRun (glint s ts) tss := rfl

theorem glintRun_concat (s : State) (tss : List ℚ) (ts : ℚ) :
    glintRun s (tss ++ [ts]) = glint (glintRun s tss) ts := by
  simp [glintRun, List.foldl_append]

theorem PAUSE_pos : (0 : ℚ) < PAUSE := by
  norm_num [PAUSE]

theorem glint_pause_first {s : State} (ts : ℚ) (hp : s.pausing = true)
    (hn : s.pauseStart = none) :
    (glint s ts).pausing = true ∧ (glint s ts).pauseStart = some ts ∧
      (glint s ts).writes = s.writes := by
  have h : ¬ ts - (if falsy s.pauseStart then ts else s.pauseStart.getD 0) ≥ PAUSE := by
    simp [hn, falsy, PAUSE_pos]
  rw [glint_pause_stay hp h]
  refine ⟨hp, ?_, rfl⟩
  show some (if falsy s.pauseStart then ts else s.pauseStart.getD 0) = some ts
  simp [hn, falsy]

theorem glint_pause_wait {s : State} {ts ps : ℚ} (hp : s.pausing = true)
    (hs : s.pauseStart = some ps) (h0 : ps ≠ 0) (ht : ts - ps < PAUSE) :
    (glint s ts).pausing = true ∧ (glint s ts).pauseStart = some ps ∧
      (glint s ts).writes = s.writes := by
  have h : ¬ ts - (if falsy s.pauseStart then ts else s.pauseStart.getD 0) ≥ PAUSE := by
    simp [hs, falsy, h0, ht]
  rw [glint_pause_stay hp h]
  refine ⟨hp, ?_, rfl⟩
  show some (if falsy s.pauseStart then ts else s.pauseStart.getD 0) = some ps
  simp [hs, falsy, h0]

theorem glint_pause_over {s : State} (ts : ℚ) {ps : ℚ} (hp : s.pausing = true)
    (hs : s.pauseStart = some ps) (h0 : ps ≠ 0) (ht : PAUSE ≤ ts - ps) :
    (glint s ts).pausing = false ∧ (glint s ts).sweepStart = none ∧
      (glint s ts).pauseStart = none ∧ (glint s ts).writes = s.writes := by
  have h : ts - (if falsy s.pauseStart then ts else s.pauseStart.getD 0) ≥ PAUSE := by
    simp [hs, falsy, h0, ht]
  rw [glint_pause_end hp h]
  exact ⟨rfl, rfl, rfl, rfl⟩

theorem glintRun_pause_wait {ps : ℚ} (h0 : ps ≠ 0) (l : List ℚ) {s : State}
    (hp : s.pausing = true) (hs : s.pauseStart = some ps) (hl : ∀ t ∈ l, t - ps < PAUSE) :
    (glintRun s l).pausing = true ∧ (glintRun s l).pauseStart = some ps ∧
      (glintRun s l).writes = s.writes := by
  induction l generalizing s with
  | nil => exact ⟨hp, hs, rfl⟩
  | cons t l ih =>
    obtain ⟨a, b, c⟩ := glint_pause_wait hp hs h0 (hl t (List.mem_cons_self t l))
    rw [glintRun_cons, ← c]
    exact ih a b (fun u hu => hl u (List.mem_cons_of_mem t hu))

theorem glintRun_pause_before {s : State} {ts1 : ℚ} {mid pre : List ℚ}
    (hp : s.pausing = true) (hn : s.pauseStart = none) (h1 : 0 < ts1)
    (hmid : ∀ t ∈ mid, t - ts1 < PAUSE) (hpre : pre <+: ts1 :: mid) :
    (glintRun s pre).pausing = true ∧ (glintRun s pre).writes = s.writes ∧
      (pre ≠ [] → (glintRun s pre).pauseStart = some ts1) := by
  rcases List.prefix_cons_iff.mp hpre with h | ⟨t, h, ht⟩
  · subst h
    exact ⟨hp, rfl, fun hc => absurd rfl hc⟩
  · subst h
    obtain ⟨a, b, c⟩ := glint_pause_first ts1 hp hn
    obtain ⟨a2, b2, c2⟩ := glintRun_pause_wait (ne_of_gt h1) t a b
      (fun u hu => hmid u (ht.mem hu))
    rw [glintRun_cons]
    exact ⟨a2, c2.trans c, fun _ => b2⟩


theorem init_sweeping (p : Page) :
    (init p).pausing = false ∧ (init p).pauseStart = none ∧ (init p).sweepStart = none := by
  by_cases h : p.active
  · rw [init_of_active h]
    exact ⟨rfl, rfl, rfl⟩
  · have h2 : p.row = none ∨ querySelectorAll p Elem.isBar = [] := by
      unfold Page.active at h
      by_contra hc
      push_neg at hc
      exact h hc
    rw [init_of_inactive h2]
    exact ⟨rfl, rfl, rfl⟩

theorem sweepRaw_none (ts : ℚ) : sweepRaw none ts = 0 := by
  simp [sweepRaw, falsy, SWEEP]

theorem sweepRaw_done {start ts : ℚ} (h0 : start ≠ 0) (h : SWEEP ≤ ts - start) :
    1 ≤ sweepRaw (some start) ts := by
  have hs : (0 : ℚ) < SWEEP := by norm_num [SWEEP]
  simp only [sweepRaw, falsy, h0, decide_False, Bool.false_eq_true, if_false, Option.getD_some]
  exact le_min ((one_le_div hs).mpr h) le_rfl

/-! ## The drift loop -/

theorem pendingDrifts_scheduleUpdate (s : State) :
    pendingDrifts (scheduleUpdate s) = pendingDrifts s := by
  unfold scheduleUpdate
  split_ifs
  · simp [pendingDrifts, requestAnimationFrame, List.count_append]
  · rfl

theorem pendingDrifts_idleExpired (m : JsMath) (s : State) :
    pendingDrifts (idleExpired m s) = pendingDrifts s + 1 := by
  unfold idleExpired drift
  simp only [Bool.not_true, Bool.false_eq_true, if_false]
  have h := pendingDrifts_scheduleUpdate { s with
    isIdle := true
    angle := s.angle + 0.004
    mx := driftX m s.rowCache (s.angle + 0.004)
    my := driftY m s.rowCache (s.angle + 0.004) }
  simp only [pendingDrifts, requestAnimationFrame, List.count_append] at h ⊢
  rw [h]
  simp

theorem pendingDrifts_mouseMove (m : JsMath) {s : State} (h : s.listeners = registered)
    (x y : ℚ) : pendingDrifts (step m s (.mouseMove x y)) = pendingDrifts s := by
  show pendingDrifts (dispatch (.mouseMove x y) s) = _
  rw [dispatch_mouseMove h]
  exact pendingDrifts_scheduleUpdate _

theorem run_ticks_expire (m : JsMath) {s : State} {i : ℕ}
    (h : s.timers = [⟨i, s.now + 3000⟩]) :
    run m s (List.replicate 3000 Event.tick)
      = idleExpired m { s with now := s.now + 3000, timers := [] } := by
  have h1 : run m s (List.replicate 2999 Event.tick) = { s with now := s.now + 2999 } :=
    run_ticks_not_due m 2999 h (by omega)
  have e : List.replicate 3000 Event.tick = List.replicate 2999 Event.tick ++ [Event.tick] :=
    List.replicate_succ' 2999 Event.tick
  rw [e, run_append, h1, run_cons, run_nil]
  show runTick m _ = _
  rw [runTick_due m (s := { s with now := s.now + 2999 }) h (by simp only; omega)]

theorem angle_isIdle_glint (s : State) (ts : ℚ) :
    (glint s ts).angle = s.angle ∧ (glint s ts).isIdle = s.isIdle := by
  refine ⟨?_, congrArg (fun v => v.2.2.2.2) (idleView_glint s ts)⟩
  unfold glint
  by_cases hp : s.pausing = true
  · simp only [hp, if_true]
    split_ifs <;> rfl
  · simp only [hp, if_false]
    split_ifs <;> rfl

theorem rafQueue_drift_idle (m : JsMath) {s : State} (h : s.isIdle = true) :
    (drift m s).angle = s.angle + 0.004 ∧ (drift m s).isIdle = true := by
  refine ⟨?_, (congrArg (fun v => v.2.2.2.2) (idleView_drift m s)).trans h⟩
  unfold drift
  simp only [h, Bool.not_true, Bool.false_eq_true, if_false]
  show (scheduleUpdate _).angle = _
  unfold scheduleUpdate
  split_ifs <;> rfl

theorem angle_foldl_idle (m : JsMath) (ts : ℚ) (cbs : List Callback) {s : State}
    (h : s.isIdle = true) :
    (cbs.foldl (runCallback m ts) s).angle = s.angle + 0.004 * (cbs.count .drift : ℚ) ∧
      (cbs.foldl (runCallback m ts) s).isIdle = true := by
  induction cbs generalizing s with
  | nil => simpa using h
  | cons cb cbs ih =>
    cases cb with
    | update =>
      have := ih (s := update s) h
      rw [List.count_cons_of_ne (by decide)]
      exact this
    | glint =>
      obtain ⟨a, b⟩ := angle_isIdle_glint s ts
      have := ih (s := glint s ts) (b.trans h)
      rw [List.count_cons_of_ne (by decide), ← a]
      exact this
    | drift =>
      obtain ⟨a, b⟩ := rafQueue_drift_idle m h
      have := ih (s := drift m s) b
      rw [List.count_cons_self]
      refine ⟨?_, this.2⟩
      show (List.foldl (runCallback m ts) (drift m s) cbs).angle = _
      rw [this.1, a]
      push_cast
      ring

theorem angle_frame_idle (m : JsMath) (ts : ℚ) {s : State} (h : s.isIdle = true) :
    (step m s (.frame ts)).angle = s.angle + 0.004 * (pendingDrifts s : ℚ) :=
  (angle_foldl_idle m ts s.rafQueue (s := { s with rafQueue := [] }) h).1

theorem pendingDrifts_clock (s : State) (n : ℕ) :
    pendingDrifts { s with now := n, timers := [] } = pendingDrifts s := rfl

theorem race_general (m : JsMath) {p : Page} (hp : p.active) (x y : ℚ) :
    pendingDrifts (run m (init p)
        (List.replicate 3000 Event.tick ++ [Event.mouseMove x y]
          ++ List.replicate 3000 Event.tick)) = 2 ∧
      (run m (init p)
        (List.replicate 3000 Event.tick ++ [Event.mouseMove x y]
          ++ List.replicate 3000 Event.tick)).isIdle = true := by
  have h0 : (init p).timers = [⟨1, (init p).now + 3000⟩] := by
    rw [init_of_active hp]; rfl
  have q0 : pendingDrifts (init p) = 0 := by
    rw [init_of_active hp]; rfl
  have r1 : Reachable m p (run m (init p) (List.replicate 3000 Event.tick)) :=
    reachable_run Reachable.init _
  have e1 := run_ticks_expire m h0
  have a2 := armed_mouseMove hp r1 x y
  have l1 := listeners_of_reachable hp r1
  have e2 := run_ticks_expire m a2.2.2
  rw [run_append, run_append, run_cons, run_nil, e2]
  refine ⟨?_, isIdle_idleExpired _ _⟩
  rw [pendingDrifts_idleExpired, pendingDrifts_clock, pendingDrifts_mouseMove m l1, e1,
    pendingDrifts_idleExpired, pendingDrifts_clock, q0]


theorem sweepRaw_bounds {start ts : ℚ} (h : start ≤ ts) :
    0 ≤ sweepRaw (some start) ts ∧ sweepRaw (some start) ts ≤ 1 := by
  have hs : (0 : ℚ) < SWEEP := by norm_num [SWEEP]
  unfold sweepRaw
  refine ⟨le_min (div_nonneg ?_ hs.le) zero_le_one, min_le_right _ _⟩
  split_ifs
  · linarith
  · simpa using h

theorem sweepRaw_mono (start : ℚ) {ts1 ts2 : ℚ} (h : ts1 ≤ ts2) :
    sweepRaw (some start) ts1 ≤ sweepRaw (some start) ts2 := by
  have hs : (0 : ℚ) < SWEEP := by norm_num [SWEEP]
  unfold sweepRaw
  split_ifs
  · simp
  · exact min_le_min (div_le_div_of_nonneg_right (by linarith) hs.le) le_rfl

theorem ease_mono {a b : ℚ} (ha : 0 ≤ a) (hab : a ≤ b) (hb : b ≤ 1) : ease a ≤ ease b := by
  rcases hab.lt_or_eq with h | h
  · exact (ease_strictMono ha h hb).le
  · rw [h]

theorem ease_bounds {a : ℚ} (ha : 0 ≤ a) (hb : a ≤ 1) : 0 ≤ ease a ∧ ease a ≤ 1 := by
  have h0 := ease_mono le_rfl ha hb
  have h1 := ease_mono ha hb le_rfl
  rw [ease_zero] at h0
  rw [ease_one] at h1
  exact ⟨h0, h1⟩

theorem beamPx_eq (W raw : ℚ) : beamPx W raw = -300 + ease raw * (W + 600) := by
  simp only [beamPx, OVER]
  ring

theorem beamPx_zero (W : ℚ) : beamPx W 0 = -300 := by
  rw [beamPx_eq, ease_zero]
  norm_num

theorem updateWrites_length (s : State) : (updateWrites s).length = 7 * s.bars.length := by
  unfold updateWrites
  induction s.bars with
  | nil => rfl
  | cons i l ih =>
    rw [List.flatMap_cons, List.length_append, ih, List.length_cons]
    simp only [barWrites, List.length_cons, List.length_nil]
    ring

end HeroChrome

namespace HeroChrome

/-! ## Claims about the coordinate mapping and the sweep -/

/-- C2: the reflection opacity `max(0.2, 1 - (|lx - 50| / 50) * 0.5)` computed by `update`
lies between 0.2 and 1 for every `lx` and does not increase when `|lx - 50|` grows; the same
holds for the value rounded by `toFixed(2)` that is written to `--ref-opacity`. -/
theorem opacity_bounded_and_antitone :
    (∀ lx : ℚ, opacity lx = max 0.2 (1 - |lx - 50| / 50 * 0.5)) ∧
    (∀ lx : ℚ, 0.2 ≤ opacity lx ∧ opacity lx ≤ 1) ∧
    (∀ lx1 lx2 : ℚ, |lx1 - 50| ≤ |lx2 - 50| → opacity lx2 ≤ opacity lx1) ∧
    (∀ lx : ℚ, 0.2 ≤ refOpacity lx ∧ refOpacity lx ≤ 1) ∧
    (∀ lx1 lx2 : ℚ, |lx1 - 50| ≤ |lx2 - 50| → refOpacity lx2 ≤ refOpacity lx1) := by
  have h0 : ∀ lx : ℚ, 0 ≤ opacity lx := fun lx =>
    le_trans (by norm_num) (opacity_ge lx)
  refine ⟨fun _ => rfl, fun lx => ⟨opacity_ge lx, opacity_le lx⟩,
    fun _ _ h => opacity_antitone h, fun lx => ⟨?_, ?_⟩, fun lx1 lx2 h => ?_⟩
  · have := toFixed_mono (by norm_num) (opacity_ge lx) 2
    rwa [toFixed_fifth_two] at this
  · have := toFixed_mono (h0 lx) (opacity_le lx) 2
    rwa [toFixed_one_two] at this
  · exact toFixed_mono (h0 lx2) (opacity_antitone h) 2

/-- Witness for C2: the pointer at the centre (`lx = 50`) against the left edge (`lx = 0`). -/
theorem opacity_bounded_and_antitone_witness : opacity 0 ≤ opacity 50 :=
  opacity_bounded_and_antitone.2.2.1 50 0 (by norm_num)

/-- C4: for every viewport width `W`, the beam position computed by `glint` is `-300` at
`raw = 0` and `W + 300` at `raw = 1`. -/
theorem beamPx_endpoints (W : ℚ) : beamPx W 0 = -300 ∧ beamPx W 1 = W + 300 := by
  constructor
  · simp only [beamPx, ease_zero, OVER]; norm_num
  · simp only [beamPx, ease_one, OVER]; ring

/-- C8: a 1000 by 500 container at the viewport origin, the pointer at (500, 250) and a target
spanning the container: `globalX = globalY = 0.5`, `lx = ly = 50`, opacity 1, specular
position (50, 42.5) and secondary reflection (80, 85). -/
theorem update_scenario_centre :
    globalX 500 ⟨0, 0, 1000, 500⟩ = some 0.5 ∧
    globalY 250 ⟨0, 0, 1000, 500⟩ = some 0.5 ∧
    (barStyle 500 250 ⟨0, 0, 1000, 500⟩ ⟨0, 0, 1000, 500⟩).rx = some 50 ∧
    (barStyle 500 250 ⟨0, 0, 1000, 500⟩ ⟨0, 0, 1000, 500⟩).ry = some 50 ∧
    (barStyle 500 250 ⟨0, 0, 1000, 500⟩ ⟨0, 0, 1000, 500⟩).rx2 = some 80 ∧
    (barStyle 500 250 ⟨0, 0, 1000, 500⟩ ⟨0, 0, 1000, 500⟩).ry2 = some 85 ∧
    (barStyle 500 250 ⟨0, 0, 1000, 500⟩ ⟨0, 0, 1000, 500⟩).sx = some 50 ∧
    (barStyle 500 250 ⟨0, 0, 1000, 500⟩ ⟨0, 0, 1000, 500⟩).sy = some 42.5 ∧
    |(50 : ℚ) - 50| / 50 = 0 ∧ opacity 50 = 1 ∧
    (barStyle 500 250 ⟨0, 0, 1000, 500⟩ ⟨0, 0, 1000, 500⟩).refOpacity = some 1 := by
  have hx : localX 500 ⟨0, 0, 1000, 500⟩ ⟨0, 0, 1000, 500⟩ = some 50 := by
    rw [localX_self _ _ (by norm_num)]; norm_num
  have hy : localY 250 ⟨0, 0, 1000, 500⟩ ⟨0, 0, 1000, 500⟩ = some 50 := by
    rw [localY_self _ _ (by norm_num)]; norm_num
  have ho : opacity 50 = 1 := by norm_num [opacity]
  refine ⟨?_, ?_, ?_, ?_, ?_, ?_, ?_, ?_, ?_, ho, ?_⟩
  · rw [globalX, jsDiv_of_ne _ (by norm_num)]; norm_num
  · rw [globalY, jsDiv_of_ne _ (by norm_num)]; norm_num
  · exact hx
  · exact hy
  · simp only [barStyle, hx, Option.map_some']; norm_num
  · simp only [barStyle, hy, Option.map_some']; norm_num
  · simp only [barStyle, hx, Option.map_some']; norm_num
  · simp only [barStyle, hy, Option.map_some']; norm_num
  · norm_num
  · simp only [barStyle, hx, Option.map_some', refOpacity, ho, toFixed_one_two]

/-- C9: halfway through a sweep (`raw = 0.5`) the eased time is 0.5 and the beam is at the
viewport centre, `px = -300 + 0.5 * (W + 600) = W / 2`; for `W = 1200` that is 600. -/
theorem beamPx_halfway :
    ease 0.5 = 0.5 ∧
    (∀ W : ℚ, beamPx W 0.5 = -300 + 0.5 * (W + 600) ∧ beamPx W 0.5 = W / 2) ∧
    beamPx 1200 0.5 = 600 := by
  have h : ∀ W : ℚ, beamPx W 0.5 = -300 + 0.5 * (W + 600) := by
    intro W
    simp only [beamPx, ease_half, OVER]; ring
  refine ⟨ease_half, fun W => ⟨h W, ?_⟩, ?_⟩
  · rw [h]; norm_num; ring
  · rw [h]; norm_num

end HeroChrome

namespace HeroChrome

/-! ## Claims about the idle state machine, the scheduler and initialisation -/

/-- C5: on a page with the container and a target, idle mode activates after exactly 3000 ms
without mouse-move or touch-move, counted from startup or from the most recent mouse-move
(`isIdle` is false before and true from then on); a mouse-move in any reachable state leaves
the controller not idle and restarts the countdown (its only timer is due 3000 ms later); and
in every reachable state at most one idle timer is armed. -/
theorem idle_after_3000ms (m : JsMath) (p : Page) :
    (p.active →
      (∀ es, quiet es → (run m (init p) es).isIdle = decide (3000 ≤ elapsed es)) ∧
      (∀ s, Reachable m p s → ∀ x y : ℚ,
        (step m s (.mouseMove x y)).isIdle = false ∧
        (step m s (.mouseMove x y)).timers
          = [⟨(step m s (.mouseMove x y)).idleTimer, (step m s (.mouseMove x y)).now + 3000⟩] ∧
        (∀ es, quiet es →
          (run m (step m s (.mouseMove x y)) es).isIdle = decide (3000 ≤ elapsed es)))) ∧
    (∀ s, Reachable m p s → s.timers.length ≤ 1) := by
  refine ⟨fun hp => ⟨fun es hq => isIdle_run_quiet m hq (armed_init hp), fun s hs x y => ?_⟩,
    fun s hs => ?_⟩
  · have ha := armed_mouseMove hp hs x y
    exact ⟨ha.2.1, ha.2.2, fun es hq => isIdle_run_quiet m hq ha⟩
  · rcases timerInv_of_reachable hs with h | ⟨d, h⟩ <;> simp [h]

/-- Witness for C5: the sample page is idle after 3000 ms left alone and not after 2999 ms. -/
theorem idle_after_3000ms_witness :
    (run frozenMath (init samplePage) (List.replicate 3000 Event.tick)).isIdle = true ∧
    (run frozenMath (init samplePage) (List.replicate 2999 Event.tick)).isIdle = false := by
  have h := ((idle_after_3000ms frozenMath samplePage).1 samplePage_active).1
  have h1 := h _ (quiet_replicate_tick 3000)
  have h2 := h _ (quiet_replicate_tick 2999)
  rw [elapsed_replicate_tick] at h1 h2
  exact ⟨h1.trans (decide_eq_true (by norm_num)), h2.trans (decide_eq_false (by norm_num))⟩

/-- C6, evaluated on the code: the sample page turns idle after 3000 ms and `drift` puts the
pointer at (500, 300); a touch-move at (10, 20) then sets `mx`, `my` to the touch position,
leaves `isIdle` true and leaves one `update` pending that will read that position. -/
theorem touchMove_while_idle_keeps_isIdle :
    idleSample.isIdle = true ∧ idleSample.mx = 500 ∧ idleSample.my = 300 ∧
    (step frozenMath idleSample (.touchMove [(10, 20)])).isIdle = true ∧
    (step frozenMath idleSample (.touchMove [(10, 20)])).mx = 10 ∧
    (step frozenMath idleSample (.touchMove [(10, 20)])).my = 20 ∧
    pendingUpdates (step frozenMath idleSample (.touchMove [(10, 20)])) = 1 := by
  have hl := listeners_of_reachable samplePage_active idleSample_reachable
  have hi : idleSample.isIdle = true := by
    rw [idleSample_eq]
    exact isIdle_idleExpired _ _
  have hc := rowCache_init samplePage_active
  have hxy : idleSample.mx = 500 ∧ idleSample.my = 300 := by
    rw [idleSample_eq]
    have e := mx_idleExpired frozenMath { init samplePage with now := 3000, timers := [] }
    rw [e.1, e.2]
    show driftX frozenMath (init samplePage).rowCache ((init samplePage).angle + 0.004) = 500 ∧
      driftY frozenMath (init samplePage).rowCache ((init samplePage).angle + 0.004) = 300
    rw [hc.1, hc.2]
    constructor
    · simp only [driftX, frozenMath, rowRect, samplePage, Option.getD_some]; norm_num
    · simp only [driftY, frozenMath, rowRect, samplePage, Option.getD_some]; norm_num
  obtain ⟨t1, t2, t3, t4⟩ := touchMove_fields frozenMath hl 10 20 []
  have ht := tickInv_of_reachable (Reachable.step (.touchMove [(10, 20)]) idleSample_reachable)
  exact ⟨hi, hxy.1, hxy.2, t1.trans hi, t2, t3, pendingUpdates_of_ticking ht t4⟩

/-- C7: in every reachable state at most one `update` callback is pending in the
animation-frame queue, and `ticking` is true exactly when one is pending; a frame therefore
runs `update` at most once, however many input events preceded it. -/
theorem update_pending_at_most_once (m : JsMath) (p : Page) (s : State)
    (h : Reachable m p s) :
    pendingUpdates s ≤ 1 ∧ (s.ticking = true ↔ pendingUpdates s = 1) := by
  have ht := tickInv_of_reachable h
  unfold TickInv FrameInv at ht
  cases hs : s.ticking <;> simp [hs] at ht ⊢ <;> omega

/-- Witness for C7: two mouse-moves and a touch-move before the first frame. -/
theorem update_pending_at_most_once_witness :
    pendingUpdates (run frozenMath (init samplePage)
        [.mouseMove 1 2, .mouseMove 3 4, .touchMove [(5, 6)]]) ≤ 1 ∧
      ((run frozenMath (init samplePage)
        [.mouseMove 1 2, .mouseMove 3 4, .touchMove [(5, 6)]]).ticking = true ↔
       pendingUpdates (run frozenMath (init samplePage)
        [.mouseMove 1 2, .mouseMove 3 4, .touchMove [(5, 6)]]) = 1) :=
  update_pending_at_most_once frozenMath samplePage _ (reachable_run Reachable.init _)

/-- C10: when the container element is absent or there is no reflection target, the script
registers no listener, queues no animation-frame callback, arms no timer and writes no style
property, and nothing the host does afterwards changes that. -/
theorem init_noop_without_container_or_targets (p : Page)
    (h : p.row = none ∨ querySelectorAll p Elem.isBar = []) :
    ((init p).listeners = [] ∧ (init p).rafQueue = [] ∧ (init p).timers = [] ∧
      (init p).writes = []) ∧
    ∀ (m : JsMath) (es : List Event),
      (run m (init p) es).listeners = [] ∧ (run m (init p) es).rafQueue = [] ∧
      (run m (init p) es).timers = [] ∧ (run m (init p) es).writes = [] := by
  rw [init_of_inactive h]
  exact ⟨⟨rfl, rfl, rfl, rfl⟩, fun m es => run_of_unregistered m es rfl rfl rfl⟩

/-- Witness for C10: a page with a target but without the container. -/
theorem init_noop_without_container_or_targets_witness :
    (init bareRowlessPage).listeners = [] ∧ (init bareRowlessPage).rafQueue = [] ∧
    (init bareRowlessPage).timers = [] ∧ (init bareRowlessPage).writes = [] :=
  (init_noop_without_container_or_targets bareRowlessPage (Or.inl rfl)).1

end HeroChrome

namespace HeroChrome

/-! ## Claims about repeated updates, the sweep cycle, the drift loop and their ranges -/

/-- C11: running `update` twice in succession with pointer, container and targets unchanged
makes the same seven `setProperty` calls for every target both times, and leaves `ticking`
false both times. -/
theorem update_twice_writes_same (s : State) :
    (update s).writes = s.writes ++ updateWrites s ∧
    (update (update s)).writes = (update s).writes ++ updateWrites s ∧
    (updateWrites s).length = 7 * s.bars.length ∧
    (update s).ticking = false ∧ (update (update s)).ticking = false :=
  ⟨rfl, rfl, updateWrites_length s, rfl, rfl⟩

/-- C12: feeding frame timestamps to `glint`: a sweeping frame whose `raw` reaches 1 turns
`pausing` on; the first pausing frame `ts1` and every later frame less than 1500 ms after it
write nothing and keep pausing; the first frame `ts2` at least 1500 ms after `ts1` writes
nothing and ends the pause; the next frame `ts3` starts a fresh sweep with `raw = 0` and the
beam at `-300` and leaves the controller sweeping as it was at load, with `sweepStart = ts3`.
Every frame requests the next one, and a sweep ends on any frame 11000 ms after its start, so
the cycle goes on. -/
theorem glint_sweep_pause_cycle :
    (∀ p : Page, (init p).pausing = false ∧ (init p).pauseStart = none) ∧
    (∀ (s paused resumed : State) (ts0 ts1 ts2 ts3 : ℚ) (mid : List ℚ),
      s.pausing = false → s.pauseStart = none → 1 ≤ sweepRaw s.sweepStart ts0 →
      0 < ts1 → (∀ t ∈ mid, t - ts1 < 1500) → 1500 ≤ ts2 - ts1 →
      paused = glint s ts0 → resumed = glintRun paused (ts1 :: mid ++ [ts2]) →
      paused.pausing = true ∧
      (∀ pre, pre <+: ts1 :: mid → (glintRun paused pre).pausing = true) ∧
      (∀ pre, pre <+: ts1 :: mid ++ [ts2] → (glintRun paused pre).writes = paused.writes) ∧
      resumed.pausing = false ∧ resumed.sweepStart = none ∧ resumed.pauseStart = none ∧
      sweepRaw resumed.sweepStart ts3 = 0 ∧
      (glint resumed ts3).writes = resumed.writes ++ beamWritesAt resumed.page (-300) ∧
      (glint resumed ts3).pausing = false ∧ (glint resumed ts3).pauseStart = none ∧
      (glint resumed ts3).sweepStart = some ts3) ∧
    (∀ (s : State) (ts : ℚ), (glint s ts).rafQueue = s.rafQueue ++ [.glint]) ∧
    (∀ (s : State) (start ts : ℚ), s.sweepStart = some start → start ≠ 0 →
      11000 ≤ ts - start → 1 ≤ sweepRaw s.sweepStart ts) := by
  refine ⟨fun p => ⟨(init_sweeping p).1, (init_sweeping p).2.1⟩, ?_, rafQueue_glint, ?_⟩
  · intro s paused resumed ts0 ts1 ts2 ts3 mid hp hn hraw h1 hmid h2 hpd hrs
    have hmid2 : ∀ t ∈ mid, t - ts1 < PAUSE := hmid
    have h22 : PAUSE ≤ ts2 - ts1 := h2
    obtain ⟨_, g2, _, g4⟩ := glint_sweep ts0 hp
    have pp : paused.pausing = true := by
      rw [hpd, g2]; exact decide_eq_true hraw
    have pn : paused.pauseStart = none := by
      rw [hpd, g4]; exact hn
    have full := glintRun_pause_before pp pn h1 hmid2
      (List.prefix_refl _)
    have hfs := full.2.2 (List.cons_ne_nil _ _)
    obtain ⟨o1, o2, o3, o4⟩ := glint_pause_over ts2 full.1 hfs (ne_of_gt h1) h22
    have hres : resumed = glint (glintRun paused (ts1 :: mid)) ts2 := by
      rw [hrs, ← glintRun_concat]
    have r1 : resumed.pausing = false := by rw [hres]; exact o1
    have r2 : resumed.sweepStart = none := by rw [hres]; exact o2
    have r3 : resumed.pauseStart = none := by rw [hres]; exact o3
    have r4 : resumed.writes = paused.writes := by rw [hres, o4]; exact full.2.1
    obtain ⟨w1, w2, w3, w4⟩ := glint_sweep ts3 r1
    have hz : sweepRaw resumed.sweepStart ts3 = 0 := by rw [r2]; exact sweepRaw_none ts3
    refine ⟨pp, fun pre hpre => (glintRun_pause_before pp pn h1 hmid2 hpre).1, ?_, r1, r2, r3,
      hz, ?_, ?_, w4.trans r3, ?_⟩
    · intro pre hpre
      have hpre2 : pre <+: (ts1 :: mid) ++ [ts2] := hpre
      rcases List.prefix_concat_iff.mp hpre2 with e | e
      · have : glintRun paused pre = resumed := by rw [hrs, e]
        rw [this]; exact r4
      · exact (glintRun_pause_before pp pn h1 hmid2 e).2.1
    · rw [w1, hz, beamPx_zero]
    · rw [w2, hz]; exact decide_eq_false (by norm_num)
    · rw [w3, r2]; rfl
  · intro s start ts hs h0 h
    rw [hs]
    exact sweepRaw_done h0 h


/-- Witness for C12: a sweep started at 1000 reaches `raw = 1` at 12000; frames at 12016,
12032 and 13000 pause, the frame at 13516 ends the pause and the frame at 13532 starts the
next sweep. -/
theorem glint_sweep_pause_cycle_witness :
    (glintRun (glint sweepSample 12000) [12016, 12032, 13000, 13516]).pausing = false ∧
    (glintRun (glint sweepSample 12000) [12016, 12032, 13000, 13516]).writes
      = (glint sweepSample 12000).writes ∧
    (glint (glintRun (glint sweepSample 12000) [12016, 12032, 13000, 13516]) 13532).sweepStart
      = some 13532 := by
  obtain ⟨_, _, h3, h4, _, _, _, _, _, _, h11⟩ :=
    glint_sweep_pause_cycle.2.1 sweepSample _ _ 12000 12016 13516 13532 [12032, 13000] rfl rfl
      (by norm_num [sweepRaw, sweepSample, blank, falsy, SWEEP]) (by norm_num)
      (by
        intro t ht
        simp only [List.mem_cons, List.mem_singleton, List.not_mem_nil, or_false] at ht
        rcases ht with rfl | rfl <;> norm_num)
      (by norm_num) rfl rfl
  exact ⟨h4, h3 _ (List.prefix_refl _), h11⟩

/-- C13, evaluated on the code: on the sample page the idle timer fires, a mouse-move
re-arms it and it fires again 3000 ms later with no animation frame in between; the `drift`
callback queued by the first expiry is still pending, so two are queued while the controller
is idle and the next frame advances the angle by 0.008. -/
theorem stale_drift_callback_doubles_drift :
    pendingDrifts raceSample = 2 ∧ raceSample.isIdle = true ∧
    ∀ ts : ℚ, (step frozenMath raceSample (.frame ts)).angle = raceSample.angle + 0.008 := by
  have hr := race_general frozenMath samplePage_active 1 2
  unfold raceSample
  refine ⟨hr.1, hr.2, fun ts => ?_⟩
  rw [angle_frame_idle frozenMath ts hr.2, hr.1]
  norm_num

/-- C15: within a sweep started at `start`, for a viewport width `W ≥ 0` and a frame
timestamp `ts ≥ start`, `raw` and the eased time lie in `[0, 1]` and the beam position in
`[-300, W + 300]`; and a later frame of the same sweep never places the beam further left. -/
theorem beam_in_range_and_monotone (W start : ℚ) (hW : 0 ≤ W) :
    (∀ ts, start ≤ ts →
      0 ≤ sweepRaw (some start) ts ∧ sweepRaw (some start) ts ≤ 1 ∧
      0 ≤ ease (sweepRaw (some start) ts) ∧ ease (sweepRaw (some start) ts) ≤ 1 ∧
      -300 ≤ beamPx W (sweepRaw (some start) ts) ∧
      beamPx W (sweepRaw (some start) ts) ≤ W + 300) ∧
    (∀ ts1 ts2, start ≤ ts1 → ts1 ≤ ts2 →
      beamPx W (sweepRaw (some start) ts1) ≤ beamPx W (sweepRaw (some start) ts2)) := by
  have hW2 : 0 ≤ W + 600 := by linarith
  constructor
  · intro ts hts
    obtain ⟨r0, r1⟩ := sweepRaw_bounds hts
    obtain ⟨e0, e1⟩ := ease_bounds r0 r1
    refine ⟨r0, r1, e0, e1, ?_, ?_⟩
    · rw [beamPx_eq]
      nlinarith [mul_nonneg e0 hW2]
    · rw [beamPx_eq]
      nlinarith [mul_nonneg (sub_nonneg.mpr e1) hW2]
  · intro ts1 ts2 h1 h12
    obtain ⟨r0, _⟩ := sweepRaw_bounds h1
    obtain ⟨_, r1⟩ := sweepRaw_bounds (h1.trans h12)
    have he := ease_mono r0 (sweepRaw_mono start h12) r1
    rw [beamPx_eq, beamPx_eq]
    nlinarith [mul_le_mul_of_nonneg_right he hW2]

/-- Witness for C15: a 1200 pixel viewport and a sweep started at 1000, at frames 3750 and
6500. -/
theorem beam_in_range_and_monotone_witness :
    beamPx 1200 (sweepRaw (some 1000) 3750) ≤ beamPx 1200 (sweepRaw (some 1000) 6500) :=
  (beam_in_range_and_monotone 1200 1000 (by norm_num)).2 3750 6500 (by norm_num) (by norm_num)

end HeroChrome
